import Mathlib

/-!
# Verification of the perfect-freehand stroke-outline core

A shallow embedding of `src/index.ts` (getStrokeRadius, getStrokePoints,
getStrokeOutlinePoints) over the real numbers, together with theorems
settling the specification claims about it.

The helper module `./utils` imported by `src/index.ts` is not part of the
inspected sources; its functions are modelled from the specification's
descriptions (each such definition carries a `Modelled from the spec` note).
-/

open scoped Classical

namespace Freehand

/-- A 2D point, the `[x, y]` pairs the tracer emits. -/
abbrev P2 := ℝ × ℝ

/-- Modelled from the spec: `lerp` from `./utils` (absent from src/), the
linear interpolation `y1*(1-mu) + y2*mu` used by the resampler (§4.2) and the
radius function (§4.3). -/
noncomputable def lerp (y1 y2 mu : ℝ) : ℝ := y1 * (1 - mu) + y2 * mu

/-- Modelled from the spec: `clamp` from `./utils` (absent from src/),
clamping `n` into the interval `[a, b]` (§4.3 "clamp ... to [0,1]",
"clamp(thinning,-0.95,-0.05)"). -/
noncomputable def clamp (n a b : ℝ) : ℝ := max a (min n b)

/-- Modelled from the spec: the two-argument arctangent underlying
`getAngle`/`getAngleDelta` from `./utils` (absent from src/). `atan2 y x` is
the signed angle of the vector `(x, y)`, realised as the complex argument. -/
noncomputable def atan2 (y x : ℝ) : ℝ := Complex.arg ⟨x, y⟩

/-- Modelled from the spec: `getAngle` from `./utils` (absent from src/):
"Angle is the direction from the previous (resampled) point to the current
one" (§4.2); `getAngle(curr, prev)` takes the target point first. -/
noncomputable def getAngle (p0 p1 : P2) : ℝ := atan2 (p0.2 - p1.2) (p0.1 - p1.1)

/-- Modelled from the spec: `getDistance` from `./utils` (absent from src/):
"distance is the Euclidean norm between them" (§4.2). -/
noncomputable def getDistance (p0 p1 : P2) : ℝ :=
  Real.sqrt ((p0.1 - p1.1) ^ 2 + (p0.2 - p1.2) ^ 2)

/-- Modelled from the spec: `projectPoint` from `./utils` (absent from src/):
"project the current point at `angle ± π/2` by the current radius" (§4.4), the
point at distance `d` from `p0` in direction `a`. -/
noncomputable def projectPoint (p0 : P2) (a d : ℝ) : P2 :=
  (Real.cos a * d + p0.1, Real.sin a * d + p0.2)

/-- Modelled from the spec: `getPointBetween` from `./utils` (absent from
src/): "the midpoint between the test point and the candidate" (§4.4.d). -/
noncomputable def getPointBetween (p0 p1 : P2) : P2 := ((p0.1 + p1.1) / 2, (p0.2 + p1.2) / 2)

/-- Modelled from the spec: `getAngleDelta` from `./utils` (absent from
src/): "the delta between the current and next angle" (§4.4.c), the shortest
signed angular difference, recovered through `atan2` so it lands in
`(-π, π]`. -/
noncomputable def getAngleDelta (a0 a1 : ℝ) : ℝ :=
  atan2 (Real.sin (a1 - a0)) (Real.cos (a1 - a0))

/-- A raw input point: position plus optional pressure, the argument type of
the normalizer (spec §3 "pressure defaults to 0.5 when absent"). -/
structure RawPoint where
  x : ℝ
  y : ℝ
  pressure : Option ℝ

/-- A normalized sample `[x, y, pressure]`. -/
structure Sample where
  x : ℝ
  y : ℝ
  pressure : ℝ

/-- Modelled from the spec: `toPointsArray` from `./utils` (absent from
src/), the point normalizer (§4.1): uniform samples with pressure defaulted
to 0.5. -/
noncomputable def toPointsArray (points : List RawPoint) : List Sample :=
  points.map fun p => ⟨p.x, p.y, p.pressure.getD 0.5⟩

/-- An annotated sample `[x, y, pressure, angle, distance, cumulativeLength]`
as produced by `getStrokePoints`. -/
structure StrokePoint where
  x : ℝ
  y : ℝ
  pressure : ℝ
  angle : ℝ
  distance : ℝ
  clen : ℝ

/-- The `[x, y]` position of an annotated sample. -/
def StrokePoint.pos (p : StrokePoint) : P2 := (p.x, p.y)

/-- `TAU = PI / 2` from the source's constant block. -/
noncomputable def TAU : ℝ := Real.pi / 2

/-- `SHARP = TAU`, the sharp-corner threshold. -/
noncomputable def SHARP : ℝ := TAU

/-- `DULL = SHARP / 2`, the dull-corner threshold for regular emission. -/
noncomputable def DULL : ℝ := SHARP / 2

/-- `StrokeOptions` from `src/types.ts`: every recognized key is optional in
the source, so each field is an `Option` whose `none` is JS `undefined`. -/
structure StrokeOptions where
  size : Option ℝ := none
  thinning : Option ℝ := none
  smoothing : Option ℝ := none
  streamline : Option ℝ := none
  simulatePressure : Option Bool := none
  easing : Option (ℝ → ℝ) := none

/-- `getStrokeRadius` from `src/index.ts`: `thinning` may be `undefined`
(`none`), in which case the radius is the constant `size / 2`; otherwise the
eased pressure is clamped to `[0, 1]` and interpolates the clamped thinning
response, halved. -/
noncomputable def getStrokeRadius (size : ℝ) (thinning : Option ℝ)
    (easing : ℝ → ℝ) (pressure : ℝ) : ℝ :=
  match thinning with
  | none => size / 2
  | some th =>
    let p := clamp (easing pressure) 0 1
    (if th < 0 then lerp size (size + size * clamp th (-0.95) (-0.05)) p
     else lerp (size - size * clamp th 0.05 0.95) size p) / 2

/-- The annotation loop of `getStrokePoints` (`src/index.ts` lines 49-59):
each subsequent sample's position is lerped toward the previous resampled
point by `1 - streamline`, and angle / distance / cumulative length are
derived from the previous resampled point. -/
noncomputable def annotateFrom (streamline : ℝ) (prev : StrokePoint) :
    List Sample → List StrokePoint
  | [] => []
  | p :: rest =>
    let x := lerp prev.x p.x (1 - streamline)
    let y := lerp prev.y p.y (1 - streamline)
    let angle := getAngle (x, y) (prev.x, prev.y)
    let distance := getDistance (x, y) (prev.x, prev.y)
    let curr : StrokePoint := ⟨x, y, p.pressure, angle, distance, prev.clen + distance⟩
    curr :: annotateFrom streamline curr rest

/-- `getStrokePoints` from `src/index.ts`: normalize the input, replace the
first sample by `[x, y, pressure || 0.5, 0, 0, 0]` (the falsy-pressure
fallback of line 47), then annotate the rest sequentially. -/
noncomputable def getStrokePoints (points : List RawPoint) (streamline : ℝ) :
    List StrokePoint :=
  match toPointsArray points with
  | [] => []
  | p0 :: rest =>
    let first : StrokePoint :=
      ⟨p0.x, p0.y, if p0.pressure = 0 then 0.5 else p0.pressure, 0, 0, 0⟩
    first :: annotateFrom streamline first rest

/-- The mutable locals of the tracer loop in `getStrokeOutlinePoints`
(`src/index.ts` lines 90-100): collected ribs, previous left/right points,
test points, previous angle, previous (maybe simulated) pressure, current
radius, and the `short` flag. -/
structure TraceState where
  leftPts : List P2
  rightPts : List P2
  pl : P2
  pr : P2
  tl : P2
  tr : P2
  pa : ℝ
  pp : ℝ
  r : ℝ
  short : Bool

/-- An 11-step cap sweep: the `for (let t = 0, step = 0.1; t <= 1; ...)`
loops of the source, projecting from `c` at angle `base + t * coeff`. -/
noncomputable def cap11 (c : P2) (base coeff r : ℝ) : List P2 :=
  (List.range 11).map fun k : ℕ => projectPoint c (base + (k : ℝ) / 10 * coeff) r

/-- A 5-step sharp-corner fan: the `for (let t = 0, step = 0.25; t <= 1; ...)`
loop of the source, projecting from `c` at angle `base + t * coeff`. -/
noncomputable def fan5 (c : P2) (base coeff r : ℝ) : List P2 :=
  (List.range 5).map fun k : ℕ => projectPoint c (base + (k : ℝ) / 4 * coeff) r

/-- One iteration of the tracer loop of `getStrokeOutlinePoints`
(`src/index.ts` lines 126-204) on the pair `(points[i], points[i+1])`:
radius update (with optional pressure simulation), short-prefix gate and
start cap, sharp-corner fan, and the regular distance/angle-gated rib
emission. -/
noncomputable def traceStep (size thinning smoothing : ℝ)
    (simulatePressure : Bool) (easing : ℝ → ℝ) (firstPt : StrokePoint)
    (st : TraceState) (cn : StrokePoint × StrokePoint) : TraceState :=
  let curr := cn.1
  let next := cn.2
  let pressure :=
    if thinning ≠ 0 ∧ simulatePressure = true then
      let rp := min (1 - curr.distance / size) 1
      let sp := min (curr.distance / size) 1
      min 1 (st.pp + (rp - st.pp) * (sp / 2))
    else curr.pressure
  let r := if thinning ≠ 0 then getStrokeRadius size (some thinning) easing pressure
    else st.r
  if st.short = true ∧ curr.clen < size / 4 then
    { st with r := r }
  else
    let st1 :=
      if st.short = true then
        { st with
          r := r
          short := false
          leftPts := st.leftPts ++ cap11 firstPt.pos (curr.angle + TAU) (-Real.pi) r
          tl := projectPoint firstPt.pos (curr.angle + TAU + (10 : ℝ) / 10 * -Real.pi) r
          rightPts := st.rightPts ++ [projectPoint firstPt.pos (curr.angle + TAU) r]
          tr := projectPoint firstPt.pos (curr.angle + TAU) r }
      else { st with r := r }
    let absDelta := |getAngleDelta next.angle curr.angle|
    if SHARP < absDelta then
      { st1 with
        leftPts := st1.leftPts ++ fan5 curr.pos (st1.pa - TAU) (-Real.pi) r
        rightPts := st1.rightPts ++ fan5 curr.pos (st1.pa + TAU) Real.pi r
        tl := projectPoint curr.pos (st1.pa - TAU + (4 : ℝ) / 4 * -Real.pi) r
        tr := projectPoint curr.pos (st1.pa + TAU + (4 : ℝ) / 4 * Real.pi) r }
    else
      let pl := projectPoint curr.pos (curr.angle - TAU) r
      let pr := projectPoint curr.pos (curr.angle + TAU) r
      let emitL := DULL < absDelta ∨ size * smoothing < getDistance pl st1.tl
      let emitR := DULL < absDelta ∨ size * smoothing < getDistance pr st1.tr
      { st1 with
        pl := pl
        pr := pr
        leftPts := if emitL then st1.leftPts ++ [getPointBetween st1.tl pl] else st1.leftPts
        tl := if emitL then pl else st1.tl
        rightPts := if emitR then st1.rightPts ++ [getPointBetween st1.tr pr] else st1.rightPts
        tr := if emitR then pr else st1.tr
        pp := pressure
        pa := curr.angle }

/-- The body of `getStrokeOutlinePoints` after option destructuring
(`src/index.ts` lines 87-214). The source reads
`totalLength = points[len - 1][5]` *before* its `len === 0` guard, so on the
empty array the read throws; the `Option` result records that: `none` is the
thrown `TypeError`, and the source's (unreachable) `if (len === 0) return []`
is kept in place. -/
noncomputable def outlineCore (points : List StrokePoint) (size thinning smoothing : ℝ)
    (simulatePressure : Bool) (easing : ℝ → ℝ) : Option (List P2) :=
  match points.getLast? with
  | none => none
  | some lastPt =>
    let len := points.length
    let totalLength := lastPt.clen
    if len = 0 then some []
    else if len = 1 ∨ totalLength ≤ size / 4 then
      let first := points.headD lastPt
      let angle := getAngle first.pos lastPt.pos
      let r := if thinning ≠ 0 then getStrokeRadius size (some thinning) easing lastPt.pressure
        else size / 2
      some (cap11 first.pos (angle + Real.pi + TAU) (-Real.pi) r ++
        cap11 lastPt.pos (angle + TAU) (-Real.pi) r)
    else
      let first := points.headD lastPt
      let st0 : TraceState :=
        ⟨[], [], first.pos, first.pos, first.pos, first.pos, first.angle, 0, size / 2, true⟩
      let pairs := (points.drop 1).zip (points.drop 2)
      let stF := pairs.foldl (traceStep size thinning smoothing simulatePressure easing first) st0
      some (stF.leftPts ++
        (stF.rightPts ++ cap11 lastPt.pos (lastPt.angle + TAU) Real.pi stF.r).reverse)

/-- `getStrokeOutlinePoints` from `src/index.ts`: destructure the options
with the source's defaults (`size = 8`, `thinning = 0.5`, `smoothing = 0.5`,
`simulatePressure = true`, `easing = t => t`) and run the tracer body. -/
noncomputable def getStrokeOutlinePoints (points : List StrokePoint)
    (options : StrokeOptions) : Option (List P2) :=
  outlineCore points (options.size.getD 8) (options.thinning.getD 0.5)
    (options.smoothing.getD 0.5) (options.simulatePressure.getD true)
    (options.easing.getD fun t => t)

/-- `getStroke` from `src/index.ts`: the composed pipeline; the source's
default `streamline = 0.5` of `getStrokePoints` is applied here. -/
noncomputable def getStroke (points : List RawPoint) (options : StrokeOptions) :
    Option (List P2) :=
  getStrokeOutlinePoints (getStrokePoints points (options.streamline.getD 0.5)) options

/-- Reference step for the claim "the outline obtained with a constant radius
of size/2 at every sample": the tracer iteration with no pressure simulation
and no radius update (the radius stays whatever the state carries, i.e. the
initial `size / 2`). Written to the spec claim's words, to be compared with
`traceStep`. -/
noncomputable def constStep (size smoothing : ℝ) (firstPt : StrokePoint)
    (st : TraceState) (cn : StrokePoint × StrokePoint) : TraceState :=
  let curr := cn.1
  let next := cn.2
  let pressure := curr.pressure
  let r := st.r
  if st.short = true ∧ curr.clen < size / 4 then
    { st with r := r }
  else
    let st1 :=
      if st.short = true then
        { st with
          r := r
          short := false
          leftPts := st.leftPts ++ cap11 firstPt.pos (curr.angle + TAU) (-Real.pi) r
          tl := projectPoint firstPt.pos (curr.angle + TAU + (10 : ℝ) / 10 * -Real.pi) r
          rightPts := st.rightPts ++ [projectPoint firstPt.pos (curr.angle + TAU) r]
          tr := projectPoint firstPt.pos (curr.angle + TAU) r }
      else { st with r := r }
    let absDelta := |getAngleDelta next.angle curr.angle|
    if SHARP < absDelta then
      { st1 with
        leftPts := st1.leftPts ++ fan5 curr.pos (st1.pa - TAU) (-Real.pi) r
        rightPts := st1.rightPts ++ fan5 curr.pos (st1.pa + TAU) Real.pi r
        tl := projectPoint curr.pos (st1.pa - TAU + (4 : ℝ) / 4 * -Real.pi) r
        tr := projectPoint curr.pos (st1.pa + TAU + (4 : ℝ) / 4 * Real.pi) r }
    else
      let pl := projectPoint curr.pos (curr.angle - TAU) r
      let pr := projectPoint curr.pos (curr.angle + TAU) r
      let emitL := DULL < absDelta ∨ size * smoothing < getDistance pl st1.tl
      let emitR := DULL < absDelta ∨ size * smoothing < getDistance pr st1.tr
      { st1 with
        pl := pl
        pr := pr
        leftPts := if emitL then st1.leftPts ++ [getPointBetween st1.tl pl] else st1.leftPts
        tl := if emitL then pl else st1.tl
        rightPts := if emitR then st1.rightPts ++ [getPointBetween st1.tr pr] else st1.rightPts
        tr := if emitR then pr else st1.tr
        pp := pressure
        pa := curr.angle }

/-- Reference outline for the claim "the outline obtained with a constant
radius of size/2 at every sample": the tracer with the radius pinned at
`size / 2` everywhere (dot branch included) and no pressure simulation.
Written to the spec claim's words, to be compared with
`getStrokeOutlinePoints`. -/
noncomputable def specConstantRadiusOutline (points : List StrokePoint)
    (options : StrokeOptions) : Option (List P2) :=
  let size := options.size.getD 8
  let smoothing := options.smoothing.getD 0.5
  match points.getLast? with
  | none => none
  | some lastPt =>
    if points.length = 0 then some []
    else if points.length = 1 ∨ lastPt.clen ≤ size / 4 then
      let first := points.headD lastPt
      let angle := getAngle first.pos lastPt.pos
      some (cap11 first.pos (angle + Real.pi + TAU) (-Real.pi) (size / 2) ++
        cap11 lastPt.pos (angle + TAU) (-Real.pi) (size / 2))
    else
      let first := points.headD lastPt
      let st0 : TraceState :=
        ⟨[], [], first.pos, first.pos, first.pos, first.pos, first.angle, 0, size / 2, true⟩
      let stF := ((points.drop 1).zip (points.drop 2)).foldl (constStep size smoothing first) st0
      some (stF.leftPts ++
        (stF.rightPts ++ cap11 lastPt.pos (lastPt.angle + TAU) Real.pi stF.r).reverse)

/-- The radius the degenerate-dot branch uses for the one-point input
`(0, 0, 0.5)` with `size = 8`: when the destructured thinning (absent means
0.5) is truthy, the §4.3 radius function applied to the last sample's
pressure 0.5 with the default identity easing; otherwise the constant
`size / 2 = 4`. -/
noncomputable def dotRadius8 (th : Option ℝ) : ℝ :=
  if th.getD 0.5 ≠ 0 then getStrokeRadius 8 (some (th.getD 0.5)) (fun t => t) 0.5 else 4

/-- C4: for every size, easing and pressure `p ∈ [0, 1]`, `getStrokeRadius`
with absent (`undefined`) thinning returns exactly `size / 2`, ignoring
pressure and easing. -/
theorem claim4_absent_thinning_constant_radius (size p : ℝ) (easing : ℝ → ℝ)
    (hp0 : 0 ≤ p) (hp1 : p ≤ 1) :
    getStrokeRadius size none easing p = size / 2 := rfl

theorem claim4_absent_thinning_constant_radius_witness :
    (0 : ℝ) ≤ 0.5 ∧ (0.5 : ℝ) ≤ 1 ∧
      getStrokeRadius 8 none (fun t => t) 0.5 = 8 / 2 :=
  ⟨by norm_num, by norm_num,
    claim4_absent_thinning_constant_radius 8 0.5 (fun t => t) (by norm_num) (by norm_num)⟩

/-- C5: with the default identity easing and any `size > 0`, `getStrokeRadius`
is monotone non-decreasing in pressure on `[0, 1]` for every thinning in
`[0, 1]`, and the monotonicity reverses for every thinning in `[-1, 0)`. -/
theorem claim5_radius_monotone_in_pressure (size th p1 p2 : ℝ) (hs : 0 < size)
    (hp0 : 0 ≤ p1) (hp : p1 ≤ p2) (hp1 : p2 ≤ 1) :
    (0 ≤ th → th ≤ 1 →
      getStrokeRadius size (some th) (fun t => t) p1 ≤
        getStrokeRadius size (some th) (fun t => t) p2)
    ∧ (-1 ≤ th → th < 0 →
      getStrokeRadius size (some th) (fun t => t) p2 ≤
        getStrokeRadius size (some th) (fun t => t) p1) := by
  have hc1 : clamp p1 0 1 = p1 := by
    simp only [clamp]
    rw [min_eq_left (le_trans hp hp1), max_eq_right hp0]
  have hc2 : clamp p2 0 1 = p2 := by
    simp only [clamp]
    rw [min_eq_left hp1, max_eq_right (le_trans hp0 hp)]
  constructor
  · intro ht0 _
    have hth : ¬ th < 0 := not_lt.mpr ht0
    have hcl : (0.05 : ℝ) ≤ clamp th 0.05 0.95 := le_max_left _ _
    simp only [getStrokeRadius, hc1, hc2, if_neg hth, lerp]
    have hprod : 0 ≤ size * clamp th 0.05 0.95 * (p2 - p1) :=
      mul_nonneg (mul_nonneg hs.le (le_trans (by norm_num) hcl)) (sub_nonneg.mpr hp)
    nlinarith [hprod]
  · intro _ ht1
    have hcl : clamp th (-0.95) (-0.05) ≤ -0.05 :=
      max_le (by norm_num) (min_le_right _ _)
    simp only [getStrokeRadius, hc1, hc2, if_pos ht1, lerp]
    have hneg : size * clamp th (-0.95) (-0.05) ≤ 0 :=
      mul_nonpos_of_nonneg_of_nonpos hs.le (le_trans hcl (by norm_num))
    have hprod : size * clamp th (-0.95) (-0.05) * (p2 - p1) ≤ 0 :=
      mul_nonpos_of_nonpos_of_nonneg hneg (sub_nonneg.mpr hp)
    nlinarith [hprod]

theorem claim5_radius_monotone_in_pressure_witness :
    getStrokeRadius 8 (some 0.5) (fun t => t) 0 ≤ getStrokeRadius 8 (some 0.5) (fun t => t) 1
    ∧ getStrokeRadius 8 (some (-0.5)) (fun t => t) 1 ≤
        getStrokeRadius 8 (some (-0.5)) (fun t => t) 0 :=
  ⟨(claim5_radius_monotone_in_pressure 8 0.5 0 1 (by norm_num) (by norm_num)
      (by norm_num) (by norm_num)).1 (by norm_num) (by norm_num),
   (claim5_radius_monotone_in_pressure 8 (-0.5) 0 1 (by norm_num) (by norm_num)
      (by norm_num) (by norm_num)).2 (by norm_num) (by norm_num)⟩

/-- C1: the claim says `getStrokeOutlinePoints` on the empty annotated
sequence returns the empty outline. The source reads `points[len - 1][5]`
*before* its `len === 0` guard, so the call throws instead (`none` in this
embedding); the normalizer/`getStrokePoints` part of the claim does hold. -/
theorem claim1_empty_input_throws :
    (∀ options : StrokeOptions, getStrokeOutlinePoints [] options = none)
    ∧ ∀ streamline : ℝ, getStrokePoints [] streamline = [] :=
  ⟨fun _ => rfl, fun _ => rfl⟩

/-- C10: a first input point with reported pressure exactly 0 is
indistinguishable from one with absent pressure: the `pts[0][2] || 0.5`
fallback replaces the falsy 0 by the default 0.5, and the whole resampled
sequence coincides with the absent-pressure one. -/
theorem claim10_zero_pressure_first_sample (x y s : ℝ) (rest : List RawPoint) :
    ((getStrokePoints (⟨x, y, some 0⟩ :: rest) s).head?.map StrokePoint.pressure
      = some 0.5)
    ∧ getStrokePoints (⟨x, y, some 0⟩ :: rest) s
      = getStrokePoints (⟨x, y, none⟩ :: rest) s := by
  constructor
  · simp [getStrokePoints, toPointsArray]
  · simp [getStrokePoints, toPointsArray]

/-- The adjacent-sample relation the resampler maintains: the step distance
is the Euclidean distance between consecutive resampled positions, and the
cumulative length accumulates it. -/
def StepRel (a b : StrokePoint) : Prop :=
  b.distance = getDistance b.pos a.pos ∧ b.clen = a.clen + b.distance

lemma chain_annotateFrom (s : ℝ) (prev : StrokePoint) (l : List Sample) :
    List.Chain StepRel prev (annotateFrom s prev l) := by
  induction l generalizing prev with
  | nil => exact List.Chain.nil
  | cons p rest ih => exact List.Chain.cons ⟨rfl, rfl⟩ (ih _)

lemma chain_adjacent {α : Type} {R : α → α → Prop} :
    ∀ (pre : List α) (first : α) (l : List α) (a b : α) (post : List α),
      List.Chain R first l → first :: l = pre ++ a :: b :: post → R a b := by
  intro pre
  induction pre with
  | nil =>
    intro first l a b post hc he
    rw [List.nil_append] at he
    injection he with h1 h2
    subst h1
    subst h2
    exact (List.chain_cons.mp hc).1
  | cons x pre ih =>
    intro first l a b post hc he
    rw [List.cons_append] at he
    injection he with h1 h2
    cases l with
    | nil => exact absurd h2 (by simp)
    | cons y ltl => exact ih y ltl a b post (List.chain_cons.mp hc).2 h2

/-- C3: the first resampled sample has angle, distance and cumulative length
all 0; every later step distance is non-negative and equals the Euclidean
distance between consecutive resampled positions; the cumulative length is
non-decreasing across the sequence. -/
theorem claim3_resampler_invariants (input : List RawPoint) (s : ℝ) :
    (∀ q, (getStrokePoints input s).head? = some q →
      q.angle = 0 ∧ q.distance = 0 ∧ q.clen = 0)
    ∧ ∀ pre a b post, getStrokePoints input s = pre ++ a :: b :: post →
        0 ≤ b.distance ∧ b.distance = getDistance b.pos a.pos ∧ a.clen ≤ b.clen := by
  constructor
  · intro q hq
    cases input with
    | nil => simp [getStrokePoints, toPointsArray] at hq
    | cons p ps =>
      have hq2 : some (⟨p.x, p.y, if p.pressure.getD 0.5 = 0 then 0.5
          else p.pressure.getD 0.5, 0, 0, 0⟩ : StrokePoint) = some q := hq
      obtain rfl := Option.some.inj hq2
      exact ⟨rfl, rfl, rfl⟩
  · intro pre a b post h
    cases input with
    | nil =>
      rw [show getStrokePoints [] s = [] from rfl] at h
      exact absurd h.symm (by simp)
    | cons p ps =>
      have hrel : StepRel a b :=
        chain_adjacent pre _ _ a b post (chain_annotateFrom s _ (toPointsArray ps)) h
      obtain ⟨hd, hc⟩ := hrel
      have hnn : 0 ≤ b.distance := by
        rw [hd]
        exact Real.sqrt_nonneg _
      exact ⟨hnn, hd, by linarith [hc]⟩

/-- Concrete two-point input for exercising the resampler claims. -/
noncomputable def c3demo : List RawPoint := [⟨0, 0, none⟩, ⟨3, 4, none⟩]

/-- The first output sample of the demo input. -/
noncomputable def c3a : StrokePoint := (getStrokePoints c3demo 0).headD ⟨0, 0, 0, 0, 0, 0⟩

/-- The second output sample of the demo input. -/
noncomputable def c3b : StrokePoint :=
  ((getStrokePoints c3demo 0).drop 1).headD ⟨0, 0, 0, 0, 0, 0⟩

theorem claim3_resampler_invariants_witness :
    (c3a.angle = 0 ∧ c3a.distance = 0 ∧ c3a.clen = 0)
    ∧ (0 ≤ c3b.distance ∧ c3b.distance = getDistance c3b.pos c3a.pos ∧ c3a.clen ≤ c3b.clen) :=
  ⟨(claim3_resampler_invariants c3demo 0).1 c3a rfl,
   (claim3_resampler_invariants c3demo 0).2 [] c3a c3b [] rfl⟩

lemma annotate_positions_streamline_zero (prev : StrokePoint) (l : List Sample) :
    (annotateFrom 0 prev l).map (fun q => (q.x, q.y)) = l.map fun p => (p.x, p.y) := by
  induction l generalizing prev with
  | nil => rfl
  | cons p rest ih =>
    simp only [annotateFrom, List.map_cons]
    congr 1
    · simp [lerp]
    · exact ih _

lemma annotate_positions_streamline_one (prev : StrokePoint) (l : List Sample) :
    ∀ q ∈ annotateFrom 1 prev l, q.x = prev.x ∧ q.y = prev.y := by
  induction l generalizing prev with
  | nil => intro q hq; simp [annotateFrom] at hq
  | cons p rest ih =>
    intro q hq
    have hx : lerp prev.x p.x (1 - 1) = prev.x := by simp [lerp]
    have hy : lerp prev.y p.y (1 - 1) = prev.y := by simp [lerp]
    rcases List.mem_cons.mp hq with hh | hmem
    · subst hh
      exact ⟨hx, hy⟩
    · obtain ⟨h1, h2⟩ := ih _ q hmem
      rw [h1, h2]
      exact ⟨hx, hy⟩

/-- C8: with `streamline = 0` every resampled position equals its raw input
position, and with `streamline = 1` every position after the first collapses
to the first point's position. -/
theorem claim8_streamline_extremes (input : List RawPoint) (p : RawPoint)
    (rest : List RawPoint) :
    (getStrokePoints input 0).map (fun q => (q.x, q.y)) = input.map (fun q => (q.x, q.y))
    ∧ ∀ q ∈ getStrokePoints (p :: rest) 1, q.x = p.x ∧ q.y = p.y := by
  constructor
  · cases input with
    | nil => rfl
    | cons p0 ps =>
      have h : getStrokePoints (p0 :: ps) 0 =
          (⟨p0.x, p0.y, if p0.pressure.getD 0.5 = 0 then 0.5 else p0.pressure.getD 0.5,
            0, 0, 0⟩ : StrokePoint) :: annotateFrom 0 _ (toPointsArray ps) := rfl
      rw [h, List.map_cons]
      rw [annotate_positions_streamline_zero]
      simp [toPointsArray, List.map_map]
  · intro q hq
    have h : getStrokePoints (p :: rest) 1 =
        (⟨p.x, p.y, if p.pressure.getD 0.5 = 0 then 0.5 else p.pressure.getD 0.5,
          0, 0, 0⟩ : StrokePoint) :: annotateFrom 1 _ (toPointsArray rest) := rfl
    rw [h] at hq
    rcases List.mem_cons.mp hq with hh | hmem
    · subst hh
      exact ⟨rfl, rfl⟩
    · exact annotate_positions_streamline_one _ _ q hmem

/-- One-point demo input for the streamline-0 half of C8. -/
noncomputable def c8demo1 : List RawPoint := [⟨2, 3, none⟩]

/-- Two-point demo input for the streamline-1 half of C8. -/
noncomputable def c8demo2 : List RawPoint := ⟨2, 3, none⟩ :: [⟨7, 9, none⟩]

/-- A member of the streamline-1 output of the demo input. -/
noncomputable def c8q : StrokePoint := (getStrokePoints c8demo2 1).headD ⟨0, 0, 0, 0, 0, 0⟩

theorem claim8_streamline_extremes_witness :
    (getStrokePoints c8demo1 0).map (fun q => (q.x, q.y)) = c8demo1.map (fun q => (q.x, q.y))
    ∧ c8q.x = 2 ∧ c8q.y = 3 := by
  refine ⟨(claim8_streamline_extremes c8demo1 ⟨2, 3, none⟩ []).1, ?_⟩
  have hm : c8q ∈ getStrokePoints c8demo2 1 := by
    have h : getStrokePoints c8demo2 1 = c8q :: (getStrokePoints c8demo2 1).tail := rfl
    rw [h]
    exact List.mem_cons_self _ _
  exact (claim8_streamline_extremes c8demo1 ⟨2, 3, none⟩ [⟨7, 9, none⟩]).2 c8q hm

lemma atan2_zero_zero : atan2 0 0 = 0 := by
  have h : (⟨0, 0⟩ : ℂ) = 0 := by
    apply Complex.ext <;> simp
  rw [atan2, h]
  exact Complex.arg_zero

lemma getAngle_self (p : P2) : getAngle p p = 0 := by
  simp [getAngle, atan2_zero_zero]

lemma getDistance_projectPoint (p : P2) (a d : ℝ) :
    getDistance (projectPoint p a d) p = |d| := by
  unfold getDistance projectPoint
  have hx : Real.cos a * d + p.1 - p.1 = Real.cos a * d := by ring
  have hy : Real.sin a * d + p.2 - p.2 = Real.sin a * d := by ring
  rw [hx, hy]
  have hsq : (Real.cos a * d) ^ 2 + (Real.sin a * d) ^ 2 = d ^ 2 := by
    have h := Real.sin_sq_add_cos_sq a
    nlinarith [h]
  rw [hsq, Real.sqrt_sq_eq_abs]

lemma getStrokeRadius_pos (size th p : ℝ) (easing : ℝ → ℝ) (hs : 0 < size) :
    0 < getStrokeRadius size (some th) easing p := by
  simp only [getStrokeRadius, clamp, lerp]
  have hq0 : (0 : ℝ) ≤ max 0 (min (easing p) 1) := le_max_left _ _
  have hq1 : max 0 (min (easing p) 1) ≤ 1 := max_le (by norm_num) (min_le_right _ _)
  split
  · have hc1 : (-0.95 : ℝ) ≤ max (-0.95) (min th (-0.05)) := le_max_left _ _
    have h1 : (-0.95 : ℝ) * max 0 (min (easing p) 1) ≤
        max (-0.95) (min th (-0.05)) * max 0 (min (easing p) 1) :=
      mul_le_mul_of_nonneg_right hc1 hq0
    have h2 : (0.05 : ℝ) ≤ 1 + max (-0.95) (min th (-0.05)) * max 0 (min (easing p) 1) := by
      nlinarith
    have h3 : 0 < size * (1 + max (-0.95) (min th (-0.05)) * max 0 (min (easing p) 1)) :=
      mul_pos hs (by linarith)
    nlinarith [h3]
  · have hc2 : max 0.05 (min th 0.95) ≤ (0.95 : ℝ) :=
      max_le (by norm_num) (min_le_right _ _)
    have h1 : max 0.05 (min th 0.95) * (1 - max 0 (min (easing p) 1)) ≤
        0.95 * (1 - max 0 (min (easing p) 1)) :=
      mul_le_mul_of_nonneg_right hc2 (by linarith)
    have h3 : 0 < size * (1 - max 0.05 (min th 0.95) * (1 - max 0 (min (easing p) 1))) :=
      mul_pos hs (by nlinarith)
    nlinarith [h3]

lemma dotRadius8_pos (th : Option ℝ) : 0 < dotRadius8 th := by
  unfold dotRadius8
  split
  · exact getStrokeRadius_pos 8 _ 0.5 (fun t => t) (by norm_num)
  · norm_num

/-- The one-sample annotated sequence produced from the single raw point
`(0, 0, 0.5)`; the degenerate input of the dot claims. -/
noncomputable def dotPts : List StrokePoint := [⟨0, 0, 0.5, 0, 0, 0⟩]

lemma strokePoints_single : getStrokePoints [⟨0, 0, some 0.5⟩] 0.5 = dotPts := by
  simp [getStrokePoints, toPointsArray, annotateFrom, dotPts]

lemma outlineCore_dotPts (size thinning smoothing : ℝ) (sim : Bool) (easing : ℝ → ℝ) :
    outlineCore dotPts size thinning smoothing sim easing =
      some (cap11 (0, 0) (0 + Real.pi + TAU) (-Real.pi)
          (if thinning ≠ 0 then getStrokeRadius size (some thinning) easing 0.5 else size / 2)
        ++ cap11 (0, 0) (0 + TAU) (-Real.pi)
          (if thinning ≠ 0 then getStrokeRadius size (some thinning) easing 0.5 else size / 2)) := by
  have hlast : dotPts.getLast? = some ⟨0, 0, 0.5, 0, 0, 0⟩ := rfl
  unfold outlineCore
  rw [hlast]
  have hpos : (⟨0, 0, 0.5, 0, 0, 0⟩ : StrokePoint).pos = ((0 : ℝ), (0 : ℝ)) := rfl
  simp only [dotPts, List.length_singleton, List.headD_cons, hpos, getAngle_self]
  norm_num

/-- The head of an 11-step cap sweep is the projection at the base angle. -/
lemma cap11_head (c : P2) (base coeff r : ℝ) :
    (cap11 c base coeff r).head? = some (projectPoint c base r) := by
  rw [cap11, List.head?_map, List.range_succ_eq_map, List.head?_cons, Option.map_some']
  norm_num

lemma projectPoint_down (d : ℝ) : projectPoint (0, 0) (0 + Real.pi + TAU) d = (0, -d) := by
  unfold projectPoint TAU
  have hc : Real.cos (0 + Real.pi + Real.pi / 2) = 0 := by
    rw [zero_add, Real.cos_add]
    simp
  have hs : Real.sin (0 + Real.pi + Real.pi / 2) = -1 := by
    rw [zero_add, Real.sin_add]
    simp
  rw [hc, hs]
  norm_num

lemma radius_default_dot : getStrokeRadius 8 (some 0.5) (fun t => t) 0.5 = 3 := by
  simp only [getStrokeRadius, clamp, lerp]
  rw [if_neg (by norm_num : ¬ (0.5 : ℝ) < 0)]
  norm_num [min_def, max_def]

/-- C2 counterexample: with thinning absent it defaults to 0.5 and pressure
modulation runs: on the one-point annotated input the first outline point is
`(0, -3)` (radius 3, not `size/2 = 4`), whereas disabling modulation
(`thinning = 0`) gives `(0, -4)`; the two outlines differ. -/
theorem claim2_counterexample :
    (getStrokeOutlinePoints dotPts {}).bind List.head? = some ((0 : ℝ), (-3 : ℝ))
    ∧ (getStrokeOutlinePoints dotPts { thinning := some 0 }).bind List.head?
        = some ((0 : ℝ), (-4 : ℝ))
    ∧ getStrokeOutlinePoints dotPts {}
        ≠ getStrokeOutlinePoints dotPts { thinning := some 0 } := by
  have h1 : (getStrokeOutlinePoints dotPts {}).bind List.head? = some ((0 : ℝ), (-3 : ℝ)) := by
    rw [show getStrokeOutlinePoints dotPts {} = outlineCore dotPts 8 0.5 0.5 true (fun t => t)
      from rfl]
    rw [outlineCore_dotPts]
    rw [if_pos (by norm_num : (0.5 : ℝ) ≠ 0)]
    rw [Option.some_bind]
    rw [radius_default_dot]
    rw [List.head?_append_of_ne_nil]
    · rw [cap11_head, projectPoint_down]
    · rw [cap11, List.range_succ_eq_map]
      simp
  have h2 : (getStrokeOutlinePoints dotPts { thinning := some 0 }).bind List.head?
      = some ((0 : ℝ), (-4 : ℝ)) := by
    rw [show getStrokeOutlinePoints dotPts { thinning := some 0 }
      = outlineCore dotPts 8 0 0.5 true (fun t => t) from rfl]
    rw [outlineCore_dotPts]
    rw [if_neg (by norm_num : ¬ (0 : ℝ) ≠ 0)]
    rw [Option.some_bind]
    rw [List.head?_append_of_ne_nil]
    · rw [cap11_head, projectPoint_down]
      norm_num
    · rw [cap11, List.range_succ_eq_map]
      simp
  refine ⟨h1, h2, ?_⟩
  intro h
  rw [h] at h1
  rw [h1] at h2
  have : ((0 : ℝ), (-3 : ℝ)) = ((0 : ℝ), (-4 : ℝ)) := Option.some.inj h2
  have hy : (-3 : ℝ) = -4 := congrArg Prod.snd this
  norm_num at hy

/-- C2 amended: absent thinning does not disable pressure modulation; it
makes the tracer behave exactly as if `thinning = 0.5` had been passed
(the destructuring default). -/
theorem claim2_amended_absent_thinning_defaults (pts : List StrokePoint)
    (o : StrokeOptions) (h : o.thinning = none) :
    getStrokeOutlinePoints pts o =
      getStrokeOutlinePoints pts { o with thinning := some 0.5 } := by
  unfold getStrokeOutlinePoints
  rw [h]
  rfl

theorem claim2_amended_absent_thinning_defaults_witness :
    getStrokeOutlinePoints dotPts {} =
      getStrokeOutlinePoints dotPts { thinning := some 0.5 } :=
  claim2_amended_absent_thinning_defaults dotPts {} rfl

/-- The outline the pipeline produces for the single input point
`(0, 0, 0.5)` with `size = 8` and a given thinning option. -/
noncomputable def dotOutline (th : Option ℝ) : List P2 :=
  (getStrokeOutlinePoints (getStrokePoints [⟨0, 0, some 0.5⟩] 0.5)
    { size := some 8, thinning := th }).getD []

lemma dotOutline_eq (th : Option ℝ) :
    dotOutline th =
      cap11 (0, 0) (0 + Real.pi + TAU) (-Real.pi) (dotRadius8 th)
        ++ cap11 (0, 0) (0 + TAU) (-Real.pi) (dotRadius8 th) := by
  unfold dotOutline
  rw [strokePoints_single]
  rw [show getStrokeOutlinePoints dotPts { size := some 8, thinning := th }
    = outlineCore dotPts 8 (th.getD 0.5) 0.5 true (fun t => t) from rfl]
  rw [outlineCore_dotPts]
  rw [Option.getD_some]
  unfold dotRadius8
  norm_num

/-- C6: the single input point `(0, 0, 0.5)` with `size = 8` and any thinning
value yields an outline of exactly 22 points (two 11-step sweeps, one family
from the first point and one from the last), all within the dot radius of
`(0, 0)`, the radius computed per the §4.3 radius function from the last
sample's pressure when thinning is enabled. -/
theorem claim6_degenerate_dot (th : Option ℝ) :
    (dotOutline th).length = 22
    ∧ ∀ i : Fin (dotOutline th).length,
        getDistance ((dotOutline th).get i) (0, 0) ≤ dotRadius8 th := by
  constructor
  · rw [dotOutline_eq]
    simp [cap11]
  · have hd : ∀ q ∈ dotOutline th, getDistance q (0, 0) ≤ dotRadius8 th := by
      intro q hq
      rw [dotOutline_eq] at hq
      rcases List.mem_append.mp hq with hql | hqr
      · obtain ⟨k, _, rfl⟩ := List.mem_map.mp hql
        rw [getDistance_projectPoint, abs_of_pos (dotRadius8_pos th)]
      · obtain ⟨k, _, rfl⟩ := List.mem_map.mp hqr
        rw [getDistance_projectPoint, abs_of_pos (dotRadius8_pos th)]
    intro i
    exact hd _ (List.get_mem _ _ _)

lemma traceStep_thinning_zero (size smoothing : ℝ) (sim : Bool) (easing : ℝ → ℝ)
    (firstPt : StrokePoint) :
    traceStep size 0 smoothing sim easing firstPt = constStep size smoothing firstPt := by
  funext st cn
  unfold traceStep constStep
  norm_num

lemma outlineCore_thinning_zero (pts : List StrokePoint) (o : StrokeOptions)
    (sim : Bool) (easing : ℝ → ℝ) :
    outlineCore pts (o.size.getD 8) 0 (o.smoothing.getD 0.5) sim easing =
      specConstantRadiusOutline pts o := by
  unfold outlineCore specConstantRadiusOutline
  cases hpl : pts.getLast? with
  | none => rfl
  | some lastPt =>
    norm_num
    rw [traceStep_thinning_zero]

/-- C9: `thinning = 0` is treated as disabled (the truthiness guard): the
outline equals the constant-radius `size / 2` trace, pressure is never
simulated and `getStrokeRadius` is never invoked — even though
`getStrokeRadius(size, 0, easing, p)` itself would return the
pressure-dependent value `size·(0.95 + 0.05·p)/2 ∈ [0.475·size, 0.5·size]`
because of the 0.05 clamp. -/
theorem claim9_thinning_zero_truthiness (pts : List StrokePoint) (o : StrokeOptions)
    (s p : ℝ) (hth : o.thinning = some 0) (hs : 0 ≤ s) (hp0 : 0 ≤ p) (hp1 : p ≤ 1) :
    getStrokeOutlinePoints pts o = specConstantRadiusOutline pts o
    ∧ getStrokeRadius s (some 0) (fun t => t) p = s * (0.95 + 0.05 * p) / 2
    ∧ 0.475 * s ≤ getStrokeRadius s (some 0) (fun t => t) p
    ∧ getStrokeRadius s (some 0) (fun t => t) p ≤ 0.5 * s
    ∧ getStrokeRadius 8 (some 0) (fun t => t) 0 ≠ getStrokeRadius 8 (some 0) (fun t => t) 1 := by
  have hform : ∀ s2 p2 : ℝ, 0 ≤ p2 → p2 ≤ 1 →
      getStrokeRadius s2 (some 0) (fun t => t) p2 = s2 * (0.95 + 0.05 * p2) / 2 := by
    intro s2 p2 h0 h1
    simp only [getStrokeRadius, clamp, lerp]
    rw [if_neg (by norm_num : ¬ (0 : ℝ) < 0)]
    rw [min_eq_left h1, max_eq_right h0]
    have hcl : max 0.05 (min (0 : ℝ) 0.95) = 0.05 := by
      norm_num [min_def, max_def]
    rw [hcl]
    ring
  refine ⟨?_, hform s p hp0 hp1, ?_, ?_, ?_⟩
  · rw [show getStrokeOutlinePoints pts o = outlineCore pts (o.size.getD 8)
      (o.thinning.getD 0.5) (o.smoothing.getD 0.5) (o.simulatePressure.getD true)
      (o.easing.getD fun t => t) from rfl]
    rw [hth]
    rw [Option.getD_some]
    exact outlineCore_thinning_zero pts o _ _
  · rw [hform s p hp0 hp1]
    nlinarith
  · rw [hform s p hp0 hp1]
    nlinarith
  · rw [hform 8 0 (by norm_num) (by norm_num), hform 8 1 (by norm_num) (by norm_num)]
    norm_num

theorem claim9_thinning_zero_truthiness_witness :
    getStrokeOutlinePoints dotPts { thinning := some 0 }
      = specConstantRadiusOutline dotPts { thinning := some 0 }
    ∧ getStrokeRadius 8 (some 0) (fun t => t) 0.5 = 8 * (0.95 + 0.05 * 0.5) / 2
    ∧ 0.475 * 8 ≤ getStrokeRadius 8 (some 0) (fun t => t) 0.5
    ∧ getStrokeRadius 8 (some 0) (fun t => t) 0.5 ≤ 0.5 * 8
    ∧ getStrokeRadius 8 (some 0) (fun t => t) 0 ≠ getStrokeRadius 8 (some 0) (fun t => t) 1 :=
  claim9_thinning_zero_truthiness dotPts { thinning := some 0 } 8 0.5 rfl
    (by norm_num) (by norm_num) (by norm_num)

lemma angleDelta_pi : getAngleDelta Real.pi 0 = Real.pi := by
  unfold getAngleDelta atan2
  rw [zero_sub, Real.sin_neg, Real.sin_pi, Real.cos_neg, Real.cos_pi]
  have h : (⟨-1, -0⟩ : ℂ) = -1 := by
    apply Complex.ext <;> simp
  rw [h]
  exact Complex.arg_neg_one

lemma sharp_lt_abs_pi : SHARP < |Real.pi| := by
  rw [abs_of_pos Real.pi_pos]
  unfold SHARP TAU
  linarith [Real.pi_pos]

/-- First sample of the sharp-corner demo: `(0,0)`, start of the stroke. -/
noncomputable def c7first : StrokePoint := ⟨0, 0, 0.5, 0, 0, 0⟩

/-- Second sample (index 1, interior): `(1,0)` — cumulative length 1, still
inside the short prefix for `size = 8`. -/
noncomputable def c7curr : StrokePoint := ⟨1, 0, 0.5, 0, 1, 1⟩

/-- Third sample (index 2, interior): `(0.5,0)`, a full reversal — its angle
is `π`, so the delta to the previous angle is a half turn. -/
noncomputable def c7next : StrokePoint := ⟨0.5, 0, 0.5, Real.pi, 0.5, 1.5⟩

/-- Fourth (last) sample: `(10,0)`, making the total length 11. -/
noncomputable def c7last : StrokePoint := ⟨10, 0, 0.5, 0, 9.5, 11⟩

/-- The four-sample annotated sequence of the sharp-corner demo (consistent
with `getStrokePoints` at `streamline = 0`). -/
noncomputable def c7pts : List StrokePoint := [c7first, c7curr, c7next, c7last]

/-- The tracer state on arrival at sample 1 of the demo: nothing emitted,
`short` still set. -/
noncomputable def c7st0 : TraceState :=
  ⟨[], [], (0, 0), (0, 0), (0, 0), (0, 0), 0, 0, 4, true⟩

/-- The radius the demo's loop body computes on a short-prefix sample with
step distance `d` arriving with previous pressure `pp` (default options,
simulated pressure). -/
noncomputable def c7rad (d pp : ℝ) : ℝ :=
  getStrokeRadius 8 (some 0.5) (fun t => t)
    (min 1 (pp + (min (1 - d / 8) 1 - pp) * (min (d / 8) 1 / 2)))

/-- C7 counterexample: at the interior sample 1 of the demo the angular delta
to the next sample is `π > π/2`, yet the loop body emits nothing at all (the
short-prefix `continue` fires first): no 5-point fan is appended to either
rib, and the full outline of the demo stroke consists of the end cap's 11
points only. -/
theorem claim7_counterexample :
    SHARP < |getAngleDelta c7next.angle c7curr.angle|
    ∧ (traceStep 8 0.5 0.5 true (fun t => t) c7first c7st0 (c7curr, c7next)).leftPts = []
    ∧ (traceStep 8 0.5 0.5 true (fun t => t) c7first c7st0 (c7curr, c7next)).rightPts = []
    ∧ ¬ (traceStep 8 0.5 0.5 true (fun t => t) c7first c7st0 (c7curr, c7next)).leftPts
        = c7st0.leftPts ++ fan5 c7curr.pos (c7st0.pa - TAU) (-Real.pi)
            (traceStep 8 0.5 0.5 true (fun t => t) c7first c7st0 (c7curr, c7next)).r
    ∧ ((getStrokeOutlinePoints c7pts {}).getD []).length = 11 := by
  have hdelta : getAngleDelta c7next.angle c7curr.angle = Real.pi := by
    show getAngleDelta Real.pi 0 = Real.pi
    exact angleDelta_pi
  have hstep : ∀ st : TraceState, st.short = true →
      traceStep 8 0.5 0.5 true (fun t => t) c7first st (c7curr, c7next)
        = { st with r := c7rad 1 st.pp } := by
    intro st hshort
    unfold traceStep c7rad
    norm_num [c7curr, hshort]
  have h2 := hstep c7st0 rfl
  refine ⟨?_, ?_, ?_, ?_, ?_⟩
  · rw [hdelta]
    exact sharp_lt_abs_pi
  · rw [h2]
    rfl
  · rw [h2]
    rfl
  · rw [h2]
    intro h
    have hlen := congrArg List.length h
    simp [fan5, c7st0] at hlen
  · have hstep2 : ∀ st : TraceState, st.short = true →
        traceStep 8 0.5 0.5 true (fun t => t) c7first st (c7next, c7last)
          = { st with r := c7rad 0.5 st.pp } := by
      intro st hshort
      unfold traceStep c7rad
      norm_num [c7next, hshort]
    rw [show getStrokeOutlinePoints c7pts {}
      = outlineCore c7pts 8 0.5 0.5 true (fun t => t) from rfl]
    unfold outlineCore
    rw [show c7pts.getLast? = some c7last from rfl]
    simp only []
    rw [if_neg (by norm_num [c7pts] : ¬ c7pts.length = 0)]
    rw [if_neg (by norm_num [c7pts, c7last] :
      ¬ (c7pts.length = 1 ∨ c7last.clen ≤ (8 : ℝ) / 4))]
    rw [show (c7pts.drop 1).zip (c7pts.drop 2) = [(c7curr, c7next), (c7next, c7last)] from rfl]
    rw [show c7pts.headD c7last = c7first from rfl]
    rw [List.foldl_cons, hstep _ rfl, List.foldl_cons, hstep2 _ rfl, List.foldl_nil]
    rfl

/-- The radius the tracer's loop body computes at a sample: the §4.4.a
radius update (pressure simulation when enabled, truthy-thinning guard). -/
noncomputable def stepRadius (size thinning : ℝ) (sim : Bool) (easing : ℝ → ℝ)
    (st : TraceState) (curr : StrokePoint) : ℝ :=
  if thinning ≠ 0 then
    getStrokeRadius size (some thinning) easing
      (if thinning ≠ 0 ∧ sim = true then
        min 1 (st.pp + (min (1 - curr.distance / size) 1 - st.pp)
          * (min (curr.distance / size) 1 / 2))
      else curr.pressure)
  else st.r

/-- C7 amended: the fan-and-skip behaviour holds for interior samples reached
with the short-prefix gate already cleared: there a sharp angular delta
appends the 5-point fan (step 0.25, projected from the current point around
the previous angle) to each rib and skips the regular emission (`pp`, `pa`,
`pl`, `pr` are left untouched). -/
theorem claim7_amended_sharp_corner (size thinning smoothing : ℝ) (sim : Bool)
    (easing : ℝ → ℝ) (firstPt : StrokePoint) (st : TraceState)
    (curr next : StrokePoint) (hshort : st.short = false)
    (hsharp : SHARP < |getAngleDelta next.angle curr.angle|) :
    (traceStep size thinning smoothing sim easing firstPt st (curr, next)).leftPts
      = st.leftPts ++ fan5 curr.pos (st.pa - TAU) (-Real.pi)
          (traceStep size thinning smoothing sim easing firstPt st (curr, next)).r
    ∧ (traceStep size thinning smoothing sim easing firstPt st (curr, next)).rightPts
      = st.rightPts ++ fan5 curr.pos (st.pa + TAU) Real.pi
          (traceStep size thinning smoothing sim easing firstPt st (curr, next)).r
    ∧ (traceStep size thinning smoothing sim easing firstPt st (curr, next)).pa = st.pa
    ∧ (traceStep size thinning smoothing sim easing firstPt st (curr, next)).pp = st.pp
    ∧ (traceStep size thinning smoothing sim easing firstPt st (curr, next)).pl = st.pl
    ∧ (traceStep size thinning smoothing sim easing firstPt st (curr, next)).pr = st.pr := by
  have hnotshort : ¬ (st.short = true ∧ (curr, next).1.clen < size / 4) := by
    rw [hshort]
    simp
  have h : traceStep size thinning smoothing sim easing firstPt st (curr, next)
      = { st with
          r := stepRadius size thinning sim easing st curr
          leftPts := st.leftPts ++ fan5 curr.pos (st.pa - TAU) (-Real.pi) (stepRadius size thinning sim easing st curr)
          rightPts := st.rightPts ++ fan5 curr.pos (st.pa + TAU) Real.pi (stepRadius size thinning sim easing st curr)
          tl := projectPoint curr.pos (st.pa - TAU + (4 : ℝ) / 4 * -Real.pi) (stepRadius size thinning sim easing st curr)
          tr := projectPoint curr.pos (st.pa + TAU + (4 : ℝ) / 4 * Real.pi) (stepRadius size thinning sim easing st curr) } := by
    unfold traceStep stepRadius
    rw [if_neg hnotshort]
    rw [if_neg (by rw [hshort]; simp : ¬ st.short = true)]
    rw [if_pos hsharp]
  rw [h]
  exact ⟨rfl, rfl, rfl, rfl, rfl, rfl⟩

/-- A post-short-prefix tracer state used to exercise the amended C7. -/
noncomputable def c7stB : TraceState :=
  ⟨[], [], (0, 0), (0, 0), (0, 0), (0, 0), 0, 0, 4, false⟩

theorem claim7_amended_sharp_corner_witness :
    (traceStep 8 0.5 0.5 true (fun t => t) c7first c7stB (c7curr, c7next)).leftPts
      = c7stB.leftPts ++ fan5 c7curr.pos (c7stB.pa - TAU) (-Real.pi)
          (traceStep 8 0.5 0.5 true (fun t => t) c7first c7stB (c7curr, c7next)).r
    ∧ (traceStep 8 0.5 0.5 true (fun t => t) c7first c7stB (c7curr, c7next)).rightPts
      = c7stB.rightPts ++ fan5 c7curr.pos (c7stB.pa + TAU) Real.pi
          (traceStep 8 0.5 0.5 true (fun t => t) c7first c7stB (c7curr, c7next)).r
    ∧ (traceStep 8 0.5 0.5 true (fun t => t) c7first c7stB (c7curr, c7next)).pa = c7stB.pa
    ∧ (traceStep 8 0.5 0.5 true (fun t => t) c7first c7stB (c7curr, c7next)).pp = c7stB.pp
    ∧ (traceStep 8 0.5 0.5 true (fun t => t) c7first c7stB (c7curr, c7next)).pl = c7stB.pl
    ∧ (traceStep 8 0.5 0.5 true (fun t => t) c7first c7stB (c7curr, c7next)).pr = c7stB.pr :=
  claim7_amended_sharp_corner 8 0.5 0.5 true (fun t => t) c7first c7stB c7curr c7next rfl
    (by
      rw [show getAngleDelta c7next.angle c7curr.angle = getAngleDelta Real.pi 0 from rfl]
      rw [angleDelta_pi]
      exact sharp_lt_abs_pi)

end Freehand
